import Mathlib

/-!
Verification of the XML/XPath utility layer of the freedict-editor
(src/fd-dictionaries-master/freedict-editor/src/xml.c) against its
natural-language specification.

The embedding below translates the C functions of xml.c into Lean:

* contains_unbalanced_braces (xml.c lines 39-88), including the behaviour of
  its do-while loop at the buffer boundary;
* has_only_text_children_and_allowed_attrs (lines 318-378), with the
  undefined strcmp-against-NULL call modelled as the Option value none;
* my_xmlXPathEvalExpression (lines 182-226), both as a function on abstract
  evaluator outcomes and as a trace of operations on the shared parser
  context slot;
* find_node_set (lines 236-294), find_single_node (lines 297-308),
  unlink_leaf_node_with_attr (lines 390-408) over a document-tree model in
  which nodes are addressed by child-index paths;
* entry_orths_to_string (lines 432-477) over byte strings, with the glib
  primitives g_strlcat and g_utf8_strncpy modelled at byte level.

Definitions whose doc comment says "Specification-side" follow the wording
of the specification and exist only to be compared with the code-derived
definitions; everything else is translated from the C source.
-/

namespace FD

/-! ## Bracket automaton: contains_unbalanced_braces (xml.c 39-88) -/

/-- NUL byte as a character; the C string terminator. -/
def nulChar : Char := Char.ofNat 0

/-- Capacity of the fixed stack in contains_unbalanced_braces (char stack[100]). -/
def bracketCapacity : Nat := 100

/-- Model of cub_push (xml.c 46-55): the push fails (returns none) exactly when
the stack already holds bracketCapacity entries (stackend == 0). -/
def cub_push (stack : List Char) (b : Char) : Option (List Char) :=
  if stack.length = bracketCapacity then none else some (b :: stack)

/-- Model of cub_pop (xml.c 57-63): pops the most recent entry, returning the
sentinel character E on an empty stack. -/
def cub_pop (stack : List Char) : Char × List Char :=
  match stack with
  | [] => ('E', [])
  | top :: rest => (top, rest)

/-- Opener corresponding to a closing bracket character, as compared against in
the switch cases of xml.c 73-75. -/
def matchingOpener (ch : Char) : Char :=
  if ch = ')' then '(' else if ch = ']' then '[' else '\x7b'

/-- Scanning loop of contains_unbalanced_braces (xml.c 65-87): push openers
(overflow reports unbalanced), pop on closers (mismatch or empty-stack sentinel
reports unbalanced), skip all other characters; at the end of the input a final
pop distinguishes the empty stack (balanced) from a non-empty one. -/
def cub_scan : List Char → List Char → Bool
  | [], stack => decide ((cub_pop stack).1 ≠ 'E')
  | ch :: rest, stack =>
    if ch = '(' ∨ ch = '[' ∨ ch = '\x7b' then
      match cub_push stack ch with
      | none => true
      | some st => cub_scan rest st
    else if ch = ')' ∨ ch = ']' ∨ ch = '\x7d' then
      match cub_pop stack with
      | (top, st) => if top ≠ matchingOpener ch then true else cub_scan rest st
    else cub_scan rest stack

/-- Byte sequence actually visited by the do-while loop of
contains_unbalanced_braces (xml.c 65-81).  The loop body runs on the current
byte before the while test reads the next one, so the loop visits the first
byte of (string ++ NUL ++ heap) and then every following byte up to, but not
including, the next NUL.  For a non-empty NUL-free string this is exactly the
string; for the empty string the loop steps past the terminator and visits the
heap bytes that follow it, an out-of-bounds read in the C code. -/
def cubProcessed (s heap : List Char) : List Char :=
  match s ++ nulChar :: heap with
  | [] => []
  | b :: rest => b :: rest.takeWhile (fun c => c != nulChar)

/-- Model of contains_unbalanced_braces (xml.c 39-88).  The first argument is
the string pointer (none models NULL, which returns false at line 41); the
second argument models the bytes of heap memory that follow the terminating
NUL of the string buffer, which the do-while loop reads when the string is
empty. -/
def contains_unbalanced_braces (c : Option (List Char)) (heap : List Char) : Bool :=
  match c with
  | none => false
  | some s => cub_scan (cubProcessed s heap) []

/-- Specification-side single step of an unbounded matching-bracket scan: push
each opener, pop each closer requiring the matching opener, fail (none) on a
mismatch or on a close against an empty stack, ignore other characters. -/
def specStep (stack : List Char) (ch : Char) : Option (List Char) :=
  if ch = '(' ∨ ch = '[' ∨ ch = '\x7b' then some (ch :: stack)
  else if ch = ')' ∨ ch = ']' ∨ ch = '\x7d' then
    match stack with
    | [] => none
    | top :: rest => if top = matchingOpener ch then some rest else none
  else some stack

/-- Specification-side scan of a whole string with the unbounded stack; a
string has all brackets closed in the order opened exactly when the scan
started on the empty stack returns some []. -/
def specScan : List Char → List Char → Option (List Char)
  | [], stack => some stack
  | ch :: rest, stack =>
    match specStep stack ch with
    | none => none
    | some st => specScan rest st

/-- Specification-side bound check: the scan succeeds on every step and after
each step the stack holds at most the given number of entries (nesting depth
never exceeds the bound). -/
def depthLe (bound : Nat) : List Char → List Char → Bool
  | [], _ => true
  | ch :: rest, stack =>
    match specStep stack ch with
    | none => false
    | some st => decide (st.length ≤ bound) && depthLe bound rest st

/-! ## Document-tree model

Nodes are the tagged variant over Element and Text of the data model; an
element carries its ordered attribute list of (name, value) pairs and its
ordered children.  Nodes inside a document are addressed by paths of child
indices, following the design note that models detachment as removal of a
child-list entry. -/

/-- Document node: an element with attributes and children, or a text node. -/
inductive XNode where
  | elem (name : String) (attrs : List (String × String)) (children : List XNode)
  | text (content : String)
deriving Repr

/-- Node addressed by a path of child indices, none if the path leads nowhere. -/
def getNode : List Nat → XNode → Option XNode
  | [], n => some n
  | _ :: _, XNode.text _ => none
  | i :: rest, XNode.elem _ _ cs =>
    match cs[i]? with
    | none => none
    | some c => getNode rest c

/-- Insertion into a child list at an index (used to model re-attaching an
unlinked node at its former position). -/
def listInsertAt {α : Type} : Nat → α → List α → List α
  | 0, m, cs => m :: cs
  | _ + 1, m, [] => [m]
  | n + 1, m, c :: cs => c :: listInsertAt n m cs

/-- Model of xmlUnlinkNode applied to the node at the given path: the entry is
removed from its parent's child list; other nodes are untouched.  An empty or
dangling path leaves the document unchanged. -/
def removeAt : List Nat → XNode → XNode
  | [], n => n
  | _ :: _, XNode.text t => XNode.text t
  | [i], XNode.elem nm ats cs => XNode.elem nm ats (cs.eraseIdx i)
  | i :: j :: rest, XNode.elem nm ats cs =>
    match cs[i]? with
    | none => XNode.elem nm ats cs
    | some c => XNode.elem nm ats (cs.set i (removeAt (j :: rest) c))

/-- Re-insertion of a node at a path (the caller-side inverse of removeAt). -/
def insertAt : List Nat → XNode → XNode → XNode
  | [], _, doc => doc
  | _ :: _, _, XNode.text t => XNode.text t
  | [i], m, XNode.elem nm ats cs => XNode.elem nm ats (listInsertAt i m cs)
  | i :: j :: rest, m, XNode.elem nm ats cs =>
    match cs[i]? with
    | none => XNode.elem nm ats cs
    | some c => XNode.elem nm ats (cs.set i (insertAt (j :: rest) m c))

/-- Path prefix test (a path leads into the subtree of another). -/
def pathIsPrefixOf : List Nat → List Nat → Bool
  | [], _ => true
  | _ :: _, [] => false
  | i :: is2, j :: js => decide (i = j) && pathIsPrefixOf is2 js

/-- Index adjustment for paths that survive the removal of the node at the
first path: a sibling with a larger index at the removal point shifts down by
one, everything else keeps its index. -/
def adjust : List Nat → List Nat → List Nat
  | [i], j :: js => (if i < j then j - 1 else j) :: js
  | i :: k :: ps, j :: js => if i = j then j :: adjust (k :: ps) js else j :: js
  | _, p2 => p2

/-! ## Leaf shape validator: has_only_text_children_and_allowed_attrs -/

/-- Model of xmlNodeIsText. -/
def xmlNodeIsText : XNode → Bool
  | XNode.text _ => true
  | XNode.elem _ _ _ => false

/-- Children check of xml.c 370-376: every child must be a text node. -/
def childrenAllText : List XNode → Bool
  | [] => true
  | c :: rest => xmlNodeIsText c && childrenAllText rest

/-- Inner whitelist loop of xml.c 347-358 for one attribute with name aname and
value aval.  The C code checks the pointer attr_content (whether an
attr_contents array was passed at all), never the individual entry, so a NULL
entry reaches strcmp(attr_value, NULL): that undefined call is modelled as
none, as is running past the end of a contents array shorter than the names
array.  Result some true means the attribute was accepted. -/
def attrAllowed (aname aval : String) : List String → Option (List (Option String)) → Option Bool
  | [], _ => some false
  | nm :: names, none =>
    if aname = nm then some true else attrAllowed aname aval names none
  | nm :: names, some contents =>
    if aname = nm then
      match contents with
      | [] => none
      | none :: _ => none
      | some v :: ctail =>
        if aval = v then some true else attrAllowed aname aval names (some ctail)
    else attrAllowed aname aval names (some contents.tail)

/-- Outer attribute loop of xml.c 336-363: each attribute of the element is
checked against the whole whitelist; the first disallowed attribute rejects the
node. -/
def checkAttrs : List (String × String) → List String → Option (List (Option String)) → Option Bool
  | [], _, _ => some true
  | (nm, v) :: rest, names, contents =>
    match attrAllowed nm v names contents with
    | none => none
    | some false => some false
    | some true => checkAttrs rest names contents

/-- Model of has_only_text_children_and_allowed_attrs (xml.c 318-378).  For an
element with at least one attribute the whitelist must have been supplied
(attrs = none rejects, line 332) and every attribute must pass the whitelist
check; afterwards every child must be a text node.  Text nodes skip the
attribute check and have no children, so they pass.  The value none models the
undefined strcmp-against-NULL behaviour of the whitelist loop. -/
def has_only_text_children_and_allowed_attrs (n : XNode)
    (attrs : Option (List String)) (attr_contents : Option (List (Option String))) :
    Option Bool :=
  match n with
  | XNode.text _ => some true
  | XNode.elem _ nattrs children =>
    match nattrs with
    | [] => some (childrenAllText children)
    | _ :: _ =>
      match attrs with
      | none => some false
      | some names =>
        match checkAttrs nattrs names attr_contents with
        | none => none
        | some false => some false
        | some true => some (childrenAllText children)

/-! ## Evaluator outcome model: my_xmlXPathEvalExpression and find_node_set -/

/-- Model of an xmlXPathObject as far as find_node_set inspects it: an optional
node-set payload, given as the list of paths of the matched nodes. -/
structure XPObj where
  nodesetval : Option (List (List Nat))
deriving DecidableEq

/-- Abstract outcome of running the black-box xmlXPathEvalExpr on an
expression: whether the whole input was consumed (cur reached the final NUL),
the object popped from the value stack (none models an empty stack), and how
many further objects are left to drain. -/
structure RawEval where
  consumedAll : Bool
  popped : Option XPObj
  leftover : Nat
deriving DecidableEq

/-- Functional model of my_xmlXPathEvalExpression (xml.c 182-226): if
evaluation left unconsumed input the function reports an error and returns
NULL, otherwise it returns whatever the value stack held on top. -/
def my_xmlXPathEvalExpression (r : RawEval) : Option XPObj :=
  if r.consumedAll = false then none else r.popped

/-- Diagnostics printed by find_node_set on its failure paths; the zero-match
path prints nothing (its g_printerr at xml.c 276 is commented out). -/
inductive FNSDiag where
  | noXPathObject
  | noNodeset
deriving DecidableEq

/-- Model of find_node_set (xml.c 236-294): NULL result and a diagnostic when
the evaluator returned no object or an object without node-set payload, silent
NULL on an empty match set, otherwise the node set. -/
def find_node_set (r : RawEval) : Option (List (List Nat)) × Option FNSDiag :=
  match my_xmlXPathEvalExpression r with
  | none => (none, some FNSDiag.noXPathObject)
  | some xpobj =>
    match xpobj.nodesetval with
    | none => (none, some FNSDiag.noNodeset)
    | some nodes => if nodes.length = 0 then (none, none) else (some nodes, none)

/-- Model of find_single_node (xml.c 297-308): first node of the set, plus the
flag recording whether the multiple-match warning was printed. -/
def find_single_node (r : RawEval) : Option (List Nat) × Bool :=
  match (find_node_set r).1 with
  | none => (none, false)
  | some nodes => (nodes.head?, decide (nodes.length > 1))

/-- Convenience constructor for the evaluator outcome of a query that parsed
completely and produced the given match set. -/
def mkRaw (ms : List (List Nat)) : RawEval :=
  { consumedAll := true, popped := some { nodesetval := some ms }, leftover := 0 }

/-- Model of unlink_leaf_node_with_attr (xml.c 390-408).  Result none models a
crash inside the validator (the strcmp-against-NULL case); otherwise the
triple holds the returned node (none when the C function returns NULL), the
document after the call, and the value of the output flag can after the call,
whose value at entry is the last argument. -/
def unlink_leaf_node_with_attr (r : RawEval) (attrs : Option (List String))
    (attr_contents : Option (List (Option String))) (doc : XNode) (can : Bool) :
    Option (Option XNode × XNode × Bool) :=
  match (find_single_node r).1 with
  | none => some (none, doc, can)
  | some p =>
    match getNode p doc with
    | none => some (none, doc, can)
    | some n =>
      match has_only_text_children_and_allowed_attrs n attrs attr_contents with
      | none => none
      | some false => some (none, doc, false)
      | some true => some (some n, removeAt p doc, can)

/-! ## Session-slot trace model of my_xmlXPathEvalExpression

The same C function, observed through its effect on the shared parser-context
slot (*pctxt) and the mutex find_nodeset_pcontext_mutex.  Each list entry
transliterates one statement of xml.c 191-225; an evaluation error only
changes the returned object (res = NULL at line 202), never the sequence of
slot operations, which is why the operation list does not depend on the err
argument. -/

/-- Primitive operations of my_xmlXPathEvalExpression that concern the shared
slot: mutex acquire and release, the publish and clear writes of the slot, and
the slot-neutral evaluation and context-free steps. -/
inductive SlotOp where
  | lock
  | unlock
  | publish
  | clearSlot
  | evalStep
  | freeStep
deriving DecidableEq

/-- State visible to a monitoring thread: the slot contents and whether the
mutex is held. -/
structure SlotState where
  slot : Option Nat
  held : Bool
deriving DecidableEq

/-- Effect of one operation on the slot state. -/
def stepOp (s : SlotState) : SlotOp → SlotState
  | SlotOp.lock => { s with held := true }
  | SlotOp.unlock => { s with held := false }
  | SlotOp.publish => { s with slot := some 1 }
  | SlotOp.clearSlot => { s with slot := none }
  | SlotOp.evalStep => s
  | SlotOp.freeStep => s

/-- Operation sequence of my_xmlXPathEvalExpression (xml.c 191-225).  When
CHECK_CONTEXT fails the function returns before touching the slot (empty
list).  Otherwise: lock, publish the freshly allocated parser context, unlock
(193-196); evaluate, including the error check and the stack drain, none of
which touch the slot (198-217); lock, free the context, clear the slot, unlock
(219-223).  The err argument (whether evaluation failed) does not influence
the sequence. -/
def myEvalSlotOps (ctxtValid _err : Bool) : List SlotOp :=
  if ctxtValid = false then []
  else
    [SlotOp.lock, SlotOp.publish, SlotOp.unlock, SlotOp.evalStep,
     SlotOp.lock, SlotOp.freeStep, SlotOp.clearSlot, SlotOp.unlock]

/-- States after each operation, in order. -/
def runTrace (s : SlotState) : List SlotOp → List SlotState
  | [] => []
  | op :: rest =>
    let s2 := stepOp s op
    s2 :: runTrace s2 rest

/-- Final state after a whole operation sequence. -/
def runState (s : SlotState) (ops : List SlotOp) : SlotState :=
  ops.foldl stepOp s

/-- Check that every write of the slot happens while the mutex is held. -/
def writesLocked (s : SlotState) : List SlotOp → Bool
  | [] => true
  | op :: rest =>
    (match op with
     | SlotOp.publish => s.held
     | SlotOp.clearSlot => s.held
     | _ => true) && writesLocked (stepOp s op) rest

/-! ## Content joiner: entry_orths_to_string (xml.c 432-477)

Strings are modelled as byte lists; the glib primitives are modelled at byte
level because the C function mixes byte-bounded concatenation (g_strlcat) with
character-bounded copying (g_utf8_strncpy). -/

/-- Bytes of the separator ", ". -/
def sepBytes : List Nat := [44, 32]

/-- Bytes of the placeholder "(null)" used when xmlNodeGetContent returned NULL. -/
def nullBytes : List Nat := [40, 110, 117, 108, 108, 41]

/-- Bytes of the failure message "No nodes (form/orth)!". -/
def errBytes : List Nat :=
  [78, 111, 32, 110, 111, 100, 101, 115, 32, 40, 102, 111, 114, 109, 47,
   111, 114, 116, 104, 41, 33]

/-- Model of g_strlcat dst src cap: append as much of src as keeps the result
within cap - 1 bytes; if dst is already at least cap bytes long, nothing is
appended. -/
def g_strlcat (dst src : List Nat) (cap : Nat) : List Nat :=
  if cap ≤ dst.length then dst
  else dst ++ src.take (cap - 1 - dst.length)

/-- Model of g_strlcpy into a buffer of cap bytes: at most cap - 1 bytes are
copied. -/
def g_strlcpyBytes (src : List Nat) (cap : Nat) : List Nat :=
  src.take (cap - 1)

/-- Width table of g_utf8_next_char: byte length of a UTF-8 sequence as
determined from its leading byte. -/
def utf8_skip (b : Nat) : Nat :=
  if b < 192 then 1
  else if b < 224 then 2
  else if b < 240 then 3
  else if b < 248 then 4
  else if b < 252 then 5
  else 6

/-- Model of g_utf8_strncpy src n: copy at most n UTF-8 characters (not bytes)
from the front of src, stopping early at the end of src. -/
def g_utf8_strncpy : List Nat → Nat → List Nat
  | _, 0 => []
  | [], _ + 1 => []
  | b :: rest, n + 1 =>
    (b :: rest).take (utf8_skip b) ++ g_utf8_strncpy ((b :: rest).drop (utf8_skip b)) n

/-- Fuel-driven walk counting UTF-8 characters the way g_utf8_next_char does;
each step consumes at least one byte, so any fuel of at least the byte length
gives the exact count. -/
def utf8CharCountFuel : Nat → List Nat → Nat
  | 0, _ => 0
  | _ + 1, [] => 0
  | fuel + 1, b :: rest => 1 + utf8CharCountFuel fuel ((b :: rest).drop (utf8_skip b))

/-- Number of UTF-8 characters in a byte string, counted the way
g_utf8_next_char walks it. -/
def utf8CharCount (l : List Nat) : Nat := utf8CharCountFuel l.length l

/-- Accumulation loop of entry_orths_to_string (xml.c 457-467) over the
contents of the matched nodes (none models a NULL return of
xmlNodeGetContent): a separator is appended only when the buffer is non-empty
so far, then the content or the "(null)" placeholder, all byte-capped at the
buffer size. -/
def orthLoop (cap : Nat) : List (Option (List Nat)) → List Nat → List Nat
  | [], e => e
  | content :: rest, e =>
    let e2 := if e.length ≠ 0 then g_strlcat e sepBytes cap else e
    let e3 :=
      match content with
      | none => g_strlcat e2 nullBytes cap
      | some cbytes => g_strlcat e2 cbytes cap
    orthLoop cap rest e3

/-- Model of entry_orths_to_string (xml.c 432-477).  The first argument is the
result of the internal find_node_set call, carried as the list of text
contents of the matched nodes (outer none models a NULL node set).  Result
none models the len <= 0 guard; otherwise the pair holds the bytes stored into
the output buffer and the boolean return value.  On an empty match set the
error message is stored and FALSE returned; otherwise the joined buffer is
copied with g_utf8_strncpy, truncating to len / 2 UTF-8 characters. -/
def entry_orths_to_string (contents : Option (List (Option (List Nat)))) (len : Nat) :
    Option (List Nat × Bool) :=
  if len = 0 then none
  else
    match contents with
    | none => some (g_strlcpyBytes errBytes len, false)
    | some [] => some (g_strlcpyBytes errBytes len, false)
    | some cs => some (g_utf8_strncpy (orthLoop len cs []) (len / 2), true)

/-- Specification-side join of the amended content-joiner contract: fold over
the node contents, appending the separator ", " only in front of an item when
the accumulator is non-empty, and the placeholder "(null)" for a NULL
content. -/
def joinSpecModel : List (Option (List Nat)) → List Nat → List Nat
  | [], acc => acc
  | content :: rest, acc =>
    let acc2 := if acc.length ≠ 0 then acc ++ sepBytes else acc
    let acc3 :=
      match content with
      | none => acc2 ++ nullBytes
      | some cbytes => acc2 ++ cbytes
    joinSpecModel rest acc3

/-! ## Helper lemmas for the bracket automaton -/

theorem takeWhile_to_nul :
    ∀ (s t : List Char), nulChar ∉ s →
      (s ++ nulChar :: t).takeWhile (fun c => c != nulChar) = s := by
  intro s
  induction s with
  | nil =>
    intro t _
    simp
  | cons b s2 ih =>
    intro t hnul
    have hb : b ≠ nulChar := fun h => hnul (h ▸ List.mem_cons_self b s2)
    have h2 : nulChar ∉ s2 := fun h => hnul (List.mem_cons_of_mem b h)
    simp only [List.cons_append, List.takeWhile_cons]
    simp [hb, ih t h2]

theorem cubProcessed_eq (s heap : List Char) (hne : s ≠ []) (hnul : nulChar ∉ s) :
    cubProcessed s heap = s := by
  cases s with
  | nil => exact absurd rfl hne
  | cons a s2 =>
    have ha : nulChar ∉ s2 := fun h => hnul (List.mem_cons_of_mem a h)
    simp only [cubProcessed, List.cons_append]
    rw [takeWhile_to_nul s2 heap ha]

theorem cub_scan_cons_opener (ch : Char) (rest stack : List Char)
    (h : ch = '(' ∨ ch = '[' ∨ ch = '\x7b') :
    cub_scan (ch :: rest) stack =
      if stack.length = bracketCapacity then true else cub_scan rest (ch :: stack) := by
  rcases h with h | h | h <;> subst h <;>
    by_cases hfull : stack.length = bracketCapacity <;>
    simp [cub_scan, cub_push, hfull]

theorem cub_scan_cons_closer_nil (ch : Char) (rest : List Char)
    (h : ch = ')' ∨ ch = ']' ∨ ch = '\x7d') :
    cub_scan (ch :: rest) [] = true := by
  rcases h with h | h | h <;> subst h <;> simp [cub_scan, cub_pop, matchingOpener]

theorem cub_scan_cons_closer_cons (ch : Char) (rest : List Char) (top : Char)
    (st : List Char) (h : ch = ')' ∨ ch = ']' ∨ ch = '\x7d') :
    cub_scan (ch :: rest) (top :: st) =
      if top ≠ matchingOpener ch then true else cub_scan rest st := by
  rcases h with h | h | h <;> subst h <;> simp [cub_scan, cub_pop, matchingOpener]

theorem cub_scan_cons_other (ch : Char) (rest stack : List Char)
    (h1 : ¬(ch = '(' ∨ ch = '[' ∨ ch = '\x7b'))
    (h2 : ¬(ch = ')' ∨ ch = ']' ∨ ch = '\x7d')) :
    cub_scan (ch :: rest) stack = cub_scan rest stack := by
  simp [cub_scan, h1, h2]

theorem specStep_opener (ch : Char) (stack : List Char)
    (h : ch = '(' ∨ ch = '[' ∨ ch = '\x7b') :
    specStep stack ch = some (ch :: stack) := by
  rcases h with h | h | h <;> subst h <;> simp [specStep]

theorem specStep_closer_nil (ch : Char)
    (h : ch = ')' ∨ ch = ']' ∨ ch = '\x7d') :
    specStep [] ch = none := by
  rcases h with h | h | h <;> subst h <;> simp [specStep]

theorem specStep_closer_cons (ch top : Char) (st : List Char)
    (h : ch = ')' ∨ ch = ']' ∨ ch = '\x7d') :
    specStep (top :: st) ch =
      if top = matchingOpener ch then some st else none := by
  rcases h with h | h | h <;> subst h <;> simp [specStep]

theorem specStep_other (ch : Char) (stack : List Char)
    (h1 : ¬(ch = '(' ∨ ch = '[' ∨ ch = '\x7b'))
    (h2 : ¬(ch = ')' ∨ ch = ']' ∨ ch = '\x7d')) :
    specStep stack ch = some stack := by
  simp [specStep, h1, h2]

theorem depthLe_cons_some (bound : Nat) (ch : Char) (rest stack st : List Char)
    (h : specStep stack ch = some st) :
    depthLe bound (ch :: rest) stack =
      (decide (st.length ≤ bound) && depthLe bound rest st) := by
  rw [show depthLe bound (ch :: rest) stack =
        (match specStep stack ch with
         | none => false
         | some st2 => decide (st2.length ≤ bound) && depthLe bound rest st2)
      from rfl, h]

theorem depthLe_cons_none (bound : Nat) (ch : Char) (rest stack : List Char)
    (h : specStep stack ch = none) :
    depthLe bound (ch :: rest) stack = false := by
  rw [show depthLe bound (ch :: rest) stack =
        (match specStep stack ch with
         | none => false
         | some st2 => decide (st2.length ≤ bound) && depthLe bound rest st2)
      from rfl, h]

theorem specScan_cons_some (ch : Char) (rest stack st : List Char)
    (h : specStep stack ch = some st) :
    specScan (ch :: rest) stack = specScan rest st := by
  rw [show specScan (ch :: rest) stack =
        (match specStep stack ch with
         | none => none
         | some st2 => specScan rest st2)
      from rfl, h]

theorem specScan_cons_none (ch : Char) (rest stack : List Char)
    (h : specStep stack ch = none) :
    specScan (ch :: rest) stack = none := by
  rw [show specScan (ch :: rest) stack =
        (match specStep stack ch with
         | none => none
         | some st2 => specScan rest st2)
      from rfl, h]

theorem opener_ne_E (ch : Char) (h : ch = '(' ∨ ch = '[' ∨ ch = '\x7b') : ch ≠ 'E' := by
  rcases h with h | h | h <;> subst h <;> decide

theorem cub_scan_eq_spec :
    ∀ (s stack : List Char), stack.length ≤ bracketCapacity → 'E' ∉ stack →
      (cub_scan s stack = false ↔
        (depthLe bracketCapacity s stack = true ∧ specScan s stack = some [])) := by
  intro s
  induction s with
  | nil =>
    intro stack hlen hE
    cases stack with
    | nil => simp [cub_scan, cub_pop, depthLe, specScan]
    | cons t r =>
      have ht : t ≠ 'E' := fun h => hE (h ▸ List.mem_cons_self t r)
      simp [cub_scan, cub_pop, depthLe, specScan, ht]
  | cons ch rest ih =>
    intro stack hlen hE
    by_cases hop : ch = '(' ∨ ch = '[' ∨ ch = '\x7b'
    · rw [cub_scan_cons_opener ch rest stack hop,
        depthLe_cons_some bracketCapacity ch rest stack (ch :: stack)
          (specStep_opener ch stack hop),
        specScan_cons_some ch rest stack (ch :: stack) (specStep_opener ch stack hop)]
      by_cases hfull : stack.length = bracketCapacity
      · have hgt : ¬((ch :: stack).length ≤ bracketCapacity) := by
          simp only [List.length_cons]; omega
        simp [hfull, hgt]
      · have hle : (ch :: stack).length ≤ bracketCapacity := by
          simp only [List.length_cons]; omega
        have hE2 : 'E' ∉ ch :: stack := by
          intro hmem
          rcases List.mem_cons.mp hmem with h | h
          · exact opener_ne_E ch hop h.symm
          · exact hE h
        rw [if_neg hfull, decide_eq_true hle, Bool.true_and]
        exact ih (ch :: stack) hle hE2
    · by_cases hcl : ch = ')' ∨ ch = ']' ∨ ch = '\x7d'
      · cases stack with
        | nil =>
          rw [cub_scan_cons_closer_nil ch rest hcl,
            depthLe_cons_none bracketCapacity ch rest [] (specStep_closer_nil ch hcl),
            specScan_cons_none ch rest [] (specStep_closer_nil ch hcl)]
          simp
        | cons top st =>
          by_cases htm : top = matchingOpener ch
          · have hstep : specStep (top :: st) ch = some st := by
              rw [specStep_closer_cons ch top st hcl, if_pos htm]
            have hlen2 : st.length ≤ bracketCapacity := by
              simp only [List.length_cons] at hlen; omega
            have hE2 : 'E' ∉ st := fun h => hE (List.mem_cons_of_mem top h)
            rw [cub_scan_cons_closer_cons ch rest top st hcl,
              if_neg (show ¬(top ≠ matchingOpener ch) from fun h => h htm),
              depthLe_cons_some bracketCapacity ch rest (top :: st) st hstep,
              specScan_cons_some ch rest (top :: st) st hstep,
              decide_eq_true hlen2, Bool.true_and]
            exact ih st hlen2 hE2
          · have hstep : specStep (top :: st) ch = none := by
              rw [specStep_closer_cons ch top st hcl, if_neg htm]
            rw [cub_scan_cons_closer_cons ch rest top st hcl, if_pos htm,
              depthLe_cons_none bracketCapacity ch rest (top :: st) hstep,
              specScan_cons_none ch rest (top :: st) hstep]
            simp
      · rw [cub_scan_cons_other ch rest stack hop hcl,
          depthLe_cons_some bracketCapacity ch rest stack stack
            (specStep_other ch stack hop hcl),
          specScan_cons_some ch rest stack stack (specStep_other ch stack hop hcl),
          decide_eq_true hlen, Bool.true_and]
        exact ih stack hlen hE

/-- C2 counterexample: the string of 101 opening parentheses followed by 101
closing parentheses has every bracket closed in the order opened, yet
contains_unbalanced_braces returns true, because the 101st push overflows the
100-entry stack.  The claim asserts both overflow-returns-true and
balanced-returns-false, which contradict each other on this input. -/
theorem balanced_deep_nesting_reported_unbalanced :
    specScan (List.replicate 101 '(' ++ List.replicate 101 ')') [] = some [] ∧
    contains_unbalanced_braces
      (some (List.replicate 101 '(' ++ List.replicate 101 ')')) [] = true := by
  constructor
  · decide
  · decide

/-- C2 (amended): for every non-empty NUL-free string, the scanner pushes each
opener (overflow of the 100-entry stack returns true), pops on each closer
(mismatch or empty stack returns true), and reports a non-empty final stack as
true; it returns false exactly for strings whose brackets are all closed in
the order opened with nesting depth never exceeding the stack capacity of
100. -/
theorem contains_unbalanced_braces_iff_balanced_bounded
    (s heap : List Char) (hne : s ≠ []) (hnul : nulChar ∉ s) :
    contains_unbalanced_braces (some s) heap = false ↔
      (depthLe bracketCapacity s [] = true ∧ specScan s [] = some []) := by
  rw [show contains_unbalanced_braces (some s) heap = cub_scan (cubProcessed s heap) []
      from rfl,
    cubProcessed_eq s heap hne hnul]
  exact cub_scan_eq_spec s [] (by simp [bracketCapacity]) (by simp)

/-- C2 witness: a concrete balanced string within the depth bound on which the
amended theorem applies. -/
theorem contains_unbalanced_braces_iff_balanced_bounded_witness :
    contains_unbalanced_braces (some ['(', '[', ']', ')']) [] = false :=
  (contains_unbalanced_braces_iff_balanced_bounded ['(', '[', ']', ')'] []
    (by decide) (by decide)).mpr ⟨by decide, by decide⟩

/-- C8: on NULL input the function returns false as claimed, but on the empty
string the do-while loop reads the heap byte that follows the terminating NUL:
with benign heap contents it happens to return false, while with an opening
parenthesis in the following byte it returns true, so the result on the empty
string is decided by out-of-bounds memory rather than by the code. -/
theorem contains_unbalanced_braces_empty_string_oob :
    contains_unbalanced_braces none [] = false ∧
    contains_unbalanced_braces none ['('] = false ∧
    contains_unbalanced_braces (some []) [] = false ∧
    contains_unbalanced_braces (some []) ['('] = true := by
  refine ⟨rfl, rfl, by decide, by decide⟩

/-- C1: the whitelist loop of has_only_text_children_and_allowed_attrs tests
the attr_contents pointer, never the individual entry, so an attribute whose
name matches a whitelist entry holding a NULL value reaches
strcmp(attr_value, NULL) — modelled as the undefined result none — instead of
accepting any value as the claim (and the function's own doc comment) states.
With the whole contents array absent, or with the entry present and equal, the
function accepts the node as expected. -/
theorem validator_null_value_entry_is_undefined :
    has_only_text_children_and_allowed_attrs
        (XNode.elem "pos" [("type", "n")] [XNode.text "noun"])
        (some ["type"]) (some [none]) = none ∧
    has_only_text_children_and_allowed_attrs
        (XNode.elem "pos" [("type", "n")] [XNode.text "noun"])
        (some ["type"]) none = some true ∧
    has_only_text_children_and_allowed_attrs
        (XNode.elem "pos" [("type", "n")] [XNode.text "noun"])
        (some ["type"]) (some [some "n"]) = some true := by
  refine ⟨by decide, by decide, by decide⟩

/-- C3: on every run of my_xmlXPathEvalExpression — whether the context check
passes or not and whether evaluation errors or not — every write of the shared
parser-context slot happens while the mutex is held, the slot sequence over
the whole trace is null before the publish, non-null exactly from the publish
to the clear, and null afterwards, and the function returns with the slot null
and the mutex released. -/
theorem my_xmlXPathEvalExpression_slot_discipline (ctxtValid err : Bool) :
    writesLocked { slot := none, held := false } (myEvalSlotOps ctxtValid err) = true ∧
    ((runTrace { slot := none, held := false } (myEvalSlotOps ctxtValid err)).map
        (fun st => st.slot) =
      if ctxtValid = true then
        [none, some 1, some 1, some 1, some 1, some 1, none, none]
      else []) ∧
    (runState { slot := none, held := false } (myEvalSlotOps ctxtValid err)).slot = none ∧
    (runState { slot := none, held := false } (myEvalSlotOps ctxtValid err)).held = false := by
  cases ctxtValid <;> cases err <;> exact ⟨rfl, rfl, rfl, rfl⟩

/-- C6 counterexample: a malformed-expression outcome (unconsumed input) and a
no-payload outcome (object without node set) produce the same null result for
the caller of find_node_set, so the two failure kinds do not reach the caller
as distinguishable outcomes; they differ only in the diagnostic printed. -/
theorem find_node_set_failures_same_null :
    (find_node_set
      { consumedAll := false, popped := some { nodesetval := some [[0]] },
        leftover := 0 }).1 = none ∧
    (find_node_set
      { consumedAll := true, popped := some { nodesetval := none },
        leftover := 0 }).1 = none ∧
    (find_node_set
      { consumedAll := false, popped := some { nodesetval := some [[0]] },
        leftover := 0 }).1 =
      (find_node_set
        { consumedAll := true, popped := some { nodesetval := none },
          leftover := 0 }).1 := by
  refine ⟨rfl, rfl, rfl⟩

/-- C6 (amended): the malformed case (unconsumed input, or no object popped)
and the no-payload case are detected at distinct points and carry distinct
diagnostics, but every failure — malformed, missing payload, or empty match
set — reaches the immediate caller of find_node_set as the same null result,
the empty match set even without a diagnostic. -/
theorem find_node_set_failure_modes (r : RawEval) :
    ((find_node_set r).2 = some FNSDiag.noXPathObject ↔
      (r.consumedAll = false ∨ r.popped = none)) ∧
    ((find_node_set r).2 = some FNSDiag.noNodeset ↔
      (r.consumedAll = true ∧ ∃ o, r.popped = some o ∧ o.nodesetval = none)) ∧
    ((find_node_set r).1 = none ↔
      (r.consumedAll = false ∨ r.popped = none ∨
        ∃ o, r.popped = some o ∧ (o.nodesetval = none ∨ o.nodesetval = some []))) := by
  obtain ⟨ca, po, lo⟩ := r
  cases ca with
  | false =>
    rcases po with _ | ⟨ns⟩ <;> simp [find_node_set, my_xmlXPathEvalExpression]
  | true =>
    rcases po with _ | ⟨ns⟩
    · simp [find_node_set, my_xmlXPathEvalExpression]
    · rcases ns with _ | l
      · simp [find_node_set, my_xmlXPathEvalExpression]
      · cases l with
        | nil => simp [find_node_set, my_xmlXPathEvalExpression]
        | cons p ps => simp [find_node_set, my_xmlXPathEvalExpression]

/-! ## List helper lemmas for the tree model -/

theorem eraseIdx_getElem?_lt {α : Type} :
    ∀ (cs : List α) (i j : Nat), j < i → (cs.eraseIdx i)[j]? = cs[j]? := by
  intro cs
  induction cs with
  | nil => intro i j _; simp [List.eraseIdx]
  | cons c rest ih =>
    intro i j hj
    cases i with
    | zero => omega
    | succ i2 =>
      cases j with
      | zero => simp [List.eraseIdx]
      | succ j2 =>
        simp only [List.eraseIdx, List.getElem?_cons_succ]
        exact ih i2 j2 (by omega)

theorem eraseIdx_getElem?_ge {α : Type} :
    ∀ (cs : List α) (i j : Nat), i ≤ j → (cs.eraseIdx i)[j]? = cs[j + 1]? := by
  intro cs
  induction cs with
  | nil => intro i j _; simp [List.eraseIdx]
  | cons c rest ih =>
    intro i j hij
    cases i with
    | zero => simp [List.eraseIdx]
    | succ i2 =>
      cases j with
      | zero => omega
      | succ j2 =>
        simp only [List.eraseIdx, List.getElem?_cons_succ]
        exact ih i2 j2 (by omega)

theorem list_getElem?_set_self {α : Type} :
    ∀ (cs : List α) (i : Nat) (x : α), i < cs.length → (cs.set i x)[i]? = some x := by
  intro cs
  induction cs with
  | nil => intro i x h; simp at h
  | cons c rest ih =>
    intro i x h
    cases i with
    | zero => simp [List.set]
    | succ i2 =>
      simp only [List.set, List.getElem?_cons_succ]
      exact ih i2 x (by simpa using h)

theorem list_getElem?_set_ne {α : Type} :
    ∀ (cs : List α) (i j : Nat) (x : α), i ≠ j → (cs.set i x)[j]? = cs[j]? := by
  intro cs
  induction cs with
  | nil => intro i j x _; simp
  | cons c rest ih =>
    intro i j x h
    cases i with
    | zero =>
      cases j with
      | zero => exact absurd rfl h
      | succ j2 => simp [List.set]
    | succ i2 =>
      cases j with
      | zero => simp [List.set]
      | succ j2 =>
        simp only [List.set, List.getElem?_cons_succ]
        exact ih i2 j2 x (fun he => h (by rw [he]))

theorem list_set_same {α : Type} :
    ∀ (cs : List α) (i : Nat) (c : α), cs[i]? = some c → cs.set i c = cs := by
  intro cs
  induction cs with
  | nil => intro i c h; simp at h
  | cons a rest ih =>
    intro i c h
    cases i with
    | zero =>
      simp only [List.getElem?_cons_zero, Option.some.injEq] at h
      simp [List.set, h]
    | succ i2 =>
      simp only [List.getElem?_cons_succ] at h
      simp only [List.set]
      rw [ih i2 c h]

theorem list_set_set {α : Type} :
    ∀ (cs : List α) (i : Nat) (a b : α), (cs.set i a).set i b = cs.set i b := by
  intro cs
  induction cs with
  | nil => intro i a b; rfl
  | cons c rest ih =>
    intro i a b
    cases i with
    | zero => rfl
    | succ i2 =>
      simp only [List.set]
      rw [ih]

theorem listInsertAt_eraseIdx {α : Type} :
    ∀ (cs : List α) (i : Nat) (m : α), cs[i]? = some m →
      listInsertAt i m (cs.eraseIdx i) = cs := by
  intro cs
  induction cs with
  | nil => intro i m h; simp at h
  | cons a rest ih =>
    intro i m h
    cases i with
    | zero =>
      simp only [List.getElem?_cons_zero, Option.some.injEq] at h
      simp [List.eraseIdx, listInsertAt, h]
    | succ i2 =>
      simp only [List.getElem?_cons_succ] at h
      simp only [List.eraseIdx, listInsertAt]
      rw [ih i2 m h]

/-! ## Unfolding lemmas for the tree operations -/

theorem getNode_cons_elem (i : Nat) (rest2 : List Nat) (nm : String)
    (ats : List (String × String)) (cs : List XNode) (c : XNode)
    (hc : cs[i]? = some c) :
    getNode (i :: rest2) (XNode.elem nm ats cs) = getNode rest2 c := by
  simp [getNode, hc]

theorem getNode_cons_elem_none (i : Nat) (rest2 : List Nat) (nm : String)
    (ats : List (String × String)) (cs : List XNode)
    (hc : cs[i]? = none) :
    getNode (i :: rest2) (XNode.elem nm ats cs) = none := by
  simp [getNode, hc]

theorem removeAt_single_elem (i : Nat) (nm : String) (ats : List (String × String))
    (cs : List XNode) :
    removeAt [i] (XNode.elem nm ats cs) = XNode.elem nm ats (cs.eraseIdx i) := rfl

theorem removeAt_cons_elem (i j : Nat) (rest2 : List Nat) (nm : String)
    (ats : List (String × String)) (cs : List XNode) (c : XNode)
    (hc : cs[i]? = some c) :
    removeAt (i :: j :: rest2) (XNode.elem nm ats cs) =
      XNode.elem nm ats (cs.set i (removeAt (j :: rest2) c)) := by
  simp [removeAt, hc]

theorem removeAt_cons_elem_none (i j : Nat) (rest2 : List Nat) (nm : String)
    (ats : List (String × String)) (cs : List XNode)
    (hc : cs[i]? = none) :
    removeAt (i :: j :: rest2) (XNode.elem nm ats cs) = XNode.elem nm ats cs := by
  simp [removeAt, hc]

theorem insertAt_single_elem (i : Nat) (m : XNode) (nm : String)
    (ats : List (String × String)) (cs : List XNode) :
    insertAt [i] m (XNode.elem nm ats cs) = XNode.elem nm ats (listInsertAt i m cs) := rfl

theorem insertAt_cons_elem (i j : Nat) (rest2 : List Nat) (m : XNode) (nm : String)
    (ats : List (String × String)) (cs : List XNode) (c : XNode)
    (hc : cs[i]? = some c) :
    insertAt (i :: j :: rest2) m (XNode.elem nm ats cs) =
      XNode.elem nm ats (cs.set i (insertAt (j :: rest2) m c)) := by
  simp [insertAt, hc]

/-- Round-trip at the tree level: removing the node at a valid non-root path
and re-inserting it at the same path restores the original tree. -/
theorem insert_remove_id :
    ∀ (p : List Nat) (doc m : XNode), p ≠ [] → getNode p doc = some m →
      insertAt p m (removeAt p doc) = doc := by
  intro p
  induction p with
  | nil => intro doc m h _; exact absurd rfl h
  | cons i ptail ih =>
    intro doc m _ hget
    cases doc with
    | text t => simp [getNode] at hget
    | elem nm ats cs =>
      cases hc : cs[i]? with
      | none =>
        rw [getNode_cons_elem_none i ptail nm ats cs hc] at hget
        exact absurd hget (by simp)
      | some c =>
        rw [getNode_cons_elem i ptail nm ats cs c hc] at hget
        cases ptail with
        | nil =>
          have hm : c = m := by simpa [getNode] using hget
          subst hm
          rw [removeAt_single_elem, insertAt_single_elem, listInsertAt_eraseIdx cs i c hc]
        | cons j rest2 =>
          obtain ⟨hi, -⟩ := List.getElem?_eq_some.mp hc
          rw [removeAt_cons_elem i j rest2 nm ats cs c hc,
            insertAt_cons_elem i j rest2 m nm ats (cs.set i (removeAt (j :: rest2) c))
              (removeAt (j :: rest2) c) (list_getElem?_set_self cs i _ hi),
            list_set_set cs i, ih c m (by simp) hget, list_set_same cs i c hc]

/-- Nodes outside the removed subtree (and not on the removed node's ancestor
chain) stay reachable after removal, at their index-adjusted path, with the
same subtree. -/
theorem getNode_removeAt_of_independent :
    ∀ (p p2 : List Nat) (doc : XNode), p ≠ [] →
      pathIsPrefixOf p p2 = false → pathIsPrefixOf p2 p = false →
      getNode (adjust p p2) (removeAt p doc) = getNode p2 doc := by
  intro p
  induction p with
  | nil => intro p2 doc h _ _; exact absurd rfl h
  | cons i ptail ih =>
    intro p2 doc _ h1 h2
    cases p2 with
    | nil => simp [pathIsPrefixOf] at h2
    | cons j js =>
      cases ptail with
      | nil =>
        have hij : i ≠ j := by
          intro he
          subst he
          simp [pathIsPrefixOf] at h1
        cases doc with
        | text t => simp [adjust, removeAt, getNode]
        | elem nm ats cs =>
          by_cases hlt : i < j
          · rw [show adjust [i] (j :: js) = (j - 1) :: js from by simp [adjust, hlt],
              removeAt_single_elem]
            have hj1 : (cs.eraseIdx i)[j - 1]? = cs[j]? := by
              have he := eraseIdx_getElem?_ge cs i (j - 1) (by omega)
              rw [he]
              congr 1
              omega
            cases hcj : cs[j]? with
            | none =>
              rw [getNode_cons_elem_none (j - 1) js nm ats (cs.eraseIdx i) (hj1.trans hcj),
                getNode_cons_elem_none j js nm ats cs hcj]
            | some c =>
              rw [getNode_cons_elem (j - 1) js nm ats (cs.eraseIdx i) c (hj1.trans hcj),
                getNode_cons_elem j js nm ats cs c hcj]
          · rw [show adjust [i] (j :: js) = j :: js from by simp [adjust, hlt],
              removeAt_single_elem]
            have hj1 : (cs.eraseIdx i)[j]? = cs[j]? :=
              eraseIdx_getElem?_lt cs i j (by omega)
            cases hcj : cs[j]? with
            | none =>
              rw [getNode_cons_elem_none j js nm ats (cs.eraseIdx i) (hj1.trans hcj),
                getNode_cons_elem_none j js nm ats cs hcj]
            | some c =>
              rw [getNode_cons_elem j js nm ats (cs.eraseIdx i) c (hj1.trans hcj),
                getNode_cons_elem j js nm ats cs c hcj]
      | cons k ps =>
        by_cases hij : i = j
        · subst hij
          have h1' : pathIsPrefixOf (k :: ps) js = false := by
            simpa [pathIsPrefixOf] using h1
          have h2' : pathIsPrefixOf js (k :: ps) = false := by
            simpa [pathIsPrefixOf] using h2
          rw [show adjust (i :: k :: ps) (i :: js) = i :: adjust (k :: ps) js from by
            simp [adjust]]
          cases doc with
          | text t => simp [removeAt, getNode]
          | elem nm ats cs =>
            cases hc : cs[i]? with
            | none =>
              rw [removeAt_cons_elem_none i k ps nm ats cs hc,
                getNode_cons_elem_none i (adjust (k :: ps) js) nm ats cs hc,
                getNode_cons_elem_none i js nm ats cs hc]
            | some c =>
              obtain ⟨hi, -⟩ := List.getElem?_eq_some.mp hc
              rw [removeAt_cons_elem i k ps nm ats cs c hc,
                getNode_cons_elem i (adjust (k :: ps) js) nm ats
                  (cs.set i (removeAt (k :: ps) c)) (removeAt (k :: ps) c)
                  (list_getElem?_set_self cs i _ hi),
                getNode_cons_elem i js nm ats cs c hc]
              exact ih js c (by simp) h1' h2'
        · rw [show adjust (i :: k :: ps) (j :: js) = j :: js from by simp [adjust, hij]]
          cases doc with
          | text t => simp [removeAt]
          | elem nm ats cs =>
            cases hc : cs[i]? with
            | none => rw [removeAt_cons_elem_none i k ps nm ats cs hc]
            | some c =>
              rw [removeAt_cons_elem i k ps nm ats cs c hc]
              have hne : (cs.set i (removeAt (k :: ps) c))[j]? = cs[j]? :=
                list_getElem?_set_ne cs i j _ hij
              cases hcj : cs[j]? with
              | none =>
                rw [getNode_cons_elem_none j js nm ats
                    (cs.set i (removeAt (k :: ps) c)) (hne.trans hcj),
                  getNode_cons_elem_none j js nm ats cs hcj]
              | some c2 =>
                rw [getNode_cons_elem j js nm ats
                    (cs.set i (removeAt (k :: ps) c)) c2 (hne.trans hcj),
                  getNode_cons_elem j js nm ats cs c2 hcj]

/-! ## Elimination lemmas for unlink_leaf_node_with_attr -/

/-- Facts recovered from a successful unlink: the returned node is the node at
the first matched path, the new document is the old one with that node
removed, the can flag is untouched, and the validator accepted the node. -/
theorem unlink_success_elim (p : List Nat) (rest : List (List Nat))
    (attrs : Option (List String)) (ac : Option (List (Option String)))
    (doc : XNode) (can : Bool) (n d2 : XNode) (c2 : Bool)
    (h : unlink_leaf_node_with_attr (mkRaw (p :: rest)) attrs ac doc can
        = some (some n, d2, c2)) :
    getNode p doc = some n ∧ d2 = removeAt p doc ∧ c2 = can ∧
    has_only_text_children_and_allowed_attrs n attrs ac = some true := by
  have hfsn : (find_single_node (mkRaw (p :: rest))).1 = some p := rfl
  unfold unlink_leaf_node_with_attr at h
  simp only [hfsn] at h
  cases hg : getNode p doc with
  | none =>
    simp only [hg] at h
    simp at h
  | some n2 =>
    simp only [hg] at h
    cases hv : has_only_text_children_and_allowed_attrs n2 attrs ac with
    | none =>
      simp only [hv] at h
      simp at h
    | some b =>
      cases b with
      | false =>
        simp only [hv] at h
        simp at h
      | true =>
        simp only [hv] at h
        simp only [Option.some.injEq, Prod.mk.injEq] at h
        obtain ⟨hn, hd, hc⟩ := h
        subst hn
        exact ⟨rfl, hd.symm, hc.symm, hv⟩

/-- C4: whenever unlink_leaf_node_with_attr does not return a node — the query
matched nothing, or the matched node failed shape validation — the document
after the call is the document before the call (no partial mutation); and on
an empty match set the result is NULL with the document and the can flag
untouched. -/
theorem unlink_leaf_no_return_no_mutation
    (r : RawEval) (attrs : Option (List String)) (ac : Option (List (Option String)))
    (doc : XNode) (can : Bool) (d2 : XNode) (c2 : Bool)
    (h : unlink_leaf_node_with_attr r attrs ac doc can = some (none, d2, c2)) :
    d2 = doc ∧
    unlink_leaf_node_with_attr (mkRaw []) attrs ac doc can = some (none, doc, can) := by
  refine ⟨?_, rfl⟩
  unfold unlink_leaf_node_with_attr at h
  cases hf : (find_single_node r).1 with
  | none =>
    simp only [hf] at h
    simp only [Option.some.injEq, Prod.mk.injEq] at h
    exact h.2.1.symm
  | some p =>
    simp only [hf] at h
    cases hg : getNode p doc with
    | none =>
      simp only [hg] at h
      simp only [Option.some.injEq, Prod.mk.injEq] at h
      exact h.2.1.symm
    | some n =>
      simp only [hg] at h
      cases hv : has_only_text_children_and_allowed_attrs n attrs ac with
      | none =>
        simp only [hv] at h
        simp at h
      | some b =>
        cases b with
        | false =>
          simp only [hv] at h
          simp only [Option.some.injEq, Prod.mk.injEq] at h
          exact h.2.1.symm
        | true =>
          simp only [hv] at h
          simp at h

/-- C4 witness: a document whose only match is rejected by the validator comes
back unchanged, and the empty-match call returns NULL with nothing changed. -/
theorem unlink_leaf_no_return_no_mutation_witness :
    XNode.elem "entry" [] [XNode.elem "orth" [("x", "y")] []] =
      XNode.elem "entry" [] [XNode.elem "orth" [("x", "y")] []] ∧
    unlink_leaf_node_with_attr (mkRaw []) none none
        (XNode.elem "entry" [] [XNode.elem "orth" [("x", "y")] []]) true =
      some (none, XNode.elem "entry" [] [XNode.elem "orth" [("x", "y")] []], true) :=
  unlink_leaf_no_return_no_mutation (mkRaw [[0]]) none none
    (XNode.elem "entry" [] [XNode.elem "orth" [("x", "y")] []]) true
    (XNode.elem "entry" [] [XNode.elem "orth" [("x", "y")] []]) false rfl

/-- C5 counterexample: with two matches where the second matched node lies
inside the first (the text child of the matched element), the first match is
valid and is detached, and the second matched node does not remain in place —
it leaves the document together with the detached subtree.  The claim that
every other matching node remains in place is therefore false as stated. -/
theorem unlink_leaf_detaches_second_match_inside_first :
    unlink_leaf_node_with_attr (mkRaw [[0], [0, 0]]) none none
        (XNode.elem "entry" [] [XNode.elem "orth" [] [XNode.text "x"]]) true =
      some (some (XNode.elem "orth" [] [XNode.text "x"]),
        XNode.elem "entry" [] [], true) ∧
    getNode [0, 0] (XNode.elem "entry" [] [XNode.elem "orth" [] [XNode.text "x"]]) =
      some (XNode.text "x") ∧
    getNode [0, 0] (XNode.elem "entry" [] []) = none :=
  ⟨rfl, rfl, rfl⟩

/-- C5 (amended): on a multi-match query the warning flag is set and only the
first match is used: the returned node is the node at the first path, the new
document is the old one with exactly that node removed, and every other
matching node that is neither inside the detached subtree nor on its ancestor
chain is still present at its index-adjusted path with an unchanged subtree. -/
theorem unlink_leaf_first_match_only
    (p : List Nat) (rest : List (List Nat)) (attrs : Option (List String))
    (ac : Option (List (Option String))) (doc : XNode) (can : Bool)
    (n d2 : XNode) (c2 : Bool)
    (h : unlink_leaf_node_with_attr (mkRaw (p :: rest)) attrs ac doc can
        = some (some n, d2, c2)) :
    (find_single_node (mkRaw (p :: rest))).2 = decide (rest ≠ []) ∧
    getNode p doc = some n ∧
    d2 = removeAt p doc ∧
    ∀ p2 : List Nat, pathIsPrefixOf p p2 = false → pathIsPrefixOf p2 p = false →
      getNode (adjust p p2) d2 = getNode p2 doc := by
  obtain ⟨hg, hd, -, -⟩ := unlink_success_elim p rest attrs ac doc can n d2 c2 h
  refine ⟨?_, hg, hd, ?_⟩
  · cases rest with
    | nil => rfl
    | cons q qs => simp [find_single_node, find_node_set, my_xmlXPathEvalExpression, mkRaw]
  · intro p2 h1 h2
    have hpne : p ≠ [] := by
      intro he
      subst he
      simp [pathIsPrefixOf] at h1
    rw [hd]
    exact getNode_removeAt_of_independent p p2 doc hpne h1 h2

/-- C5 witness: two sibling matches; after the first is detached, the second
is still present (shifted to index 0). -/
theorem unlink_leaf_first_match_only_witness :
    getNode (adjust [0] [1]) (XNode.elem "entry" []
        [XNode.elem "orth" [] [XNode.text "b"]]) =
      getNode [1] (XNode.elem "entry" []
        [XNode.elem "orth" [] [XNode.text "a"], XNode.elem "orth" [] [XNode.text "b"]]) :=
  (unlink_leaf_first_match_only [0] [[1]] none none
      (XNode.elem "entry" []
        [XNode.elem "orth" [] [XNode.text "a"], XNode.elem "orth" [] [XNode.text "b"]])
      true (XNode.elem "orth" [] [XNode.text "a"])
      (XNode.elem "entry" [] [XNode.elem "orth" [] [XNode.text "b"]]) true rfl).2.2.2
    [1] rfl rfl

/-- C9: detaching a leaf through a successful unlink_leaf_node_with_attr and
re-inserting the returned node at the same tree position restores the original
document. -/
theorem unlink_leaf_reinsert_roundtrip
    (p : List Nat) (rest : List (List Nat)) (attrs : Option (List String))
    (ac : Option (List (Option String))) (doc : XNode) (can : Bool)
    (n d2 : XNode) (c2 : Bool)
    (hp : p ≠ [])
    (h : unlink_leaf_node_with_attr (mkRaw (p :: rest)) attrs ac doc can
        = some (some n, d2, c2)) :
    insertAt p n d2 = doc := by
  obtain ⟨hg, hd, -, -⟩ := unlink_success_elim p rest attrs ac doc can n d2 c2 h
  rw [hd]
  exact insert_remove_id p doc n hp hg

/-- C9 witness: a concrete detach and re-insert that restores the document. -/
theorem unlink_leaf_reinsert_roundtrip_witness :
    insertAt [0] (XNode.elem "orth" [] [XNode.text "x"]) (XNode.elem "entry" [] []) =
      XNode.elem "entry" [] [XNode.elem "orth" [] [XNode.text "x"]] :=
  unlink_leaf_reinsert_roundtrip [0] [] none none
    (XNode.elem "entry" [] [XNode.elem "orth" [] [XNode.text "x"]]) true
    (XNode.elem "orth" [] [XNode.text "x"]) (XNode.elem "entry" [] []) true
    (by decide) rfl

/-- C10: on a query with no match the function returns NULL with the document
and the can flag exactly as they were at entry, and the can flag changes only
on the validation-failure path, where it is set to FALSE while the returned
node is NULL — so the return value alone (NULL both times) cannot tell the
no-match case from the rejected case. -/
theorem unlink_leaf_can_flag_discipline
    (r : RawEval) (attrs : Option (List String)) (ac : Option (List (Option String)))
    (doc : XNode) (can : Bool) (ret : Option XNode) (d2 : XNode) (c2 : Bool)
    (h : unlink_leaf_node_with_attr r attrs ac doc can = some (ret, d2, c2)) :
    unlink_leaf_node_with_attr (mkRaw []) attrs ac doc can = some (none, doc, can) ∧
    (c2 ≠ can → ret = none ∧ c2 = false) := by
  refine ⟨rfl, ?_⟩
  intro hne
  unfold unlink_leaf_node_with_attr at h
  cases hf : (find_single_node r).1 with
  | none =>
    simp only [hf] at h
    simp only [Option.some.injEq, Prod.mk.injEq] at h
    exact absurd h.2.2.symm hne
  | some p =>
    simp only [hf] at h
    cases hg : getNode p doc with
    | none =>
      simp only [hg] at h
      simp only [Option.some.injEq, Prod.mk.injEq] at h
      exact absurd h.2.2.symm hne
    | some n =>
      simp only [hg] at h
      cases hv : has_only_text_children_and_allowed_attrs n attrs ac with
      | none =>
        simp only [hv] at h
        simp at h
      | some b =>
        cases b with
        | false =>
          simp only [hv] at h
          simp only [Option.some.injEq, Prod.mk.injEq] at h
          exact ⟨h.1.symm, h.2.2.symm⟩
        | true =>
          simp only [hv] at h
          simp only [Option.some.injEq, Prod.mk.injEq] at h
          exact absurd h.2.2.symm hne

/-- C10 witness: concrete calls showing the no-match return with the flag kept
at its entry value, and the conditional conclusion at a call whose match is
rejected (flag set to FALSE, returned node NULL). -/
theorem unlink_leaf_can_flag_discipline_witness :
    (unlink_leaf_node_with_attr (mkRaw []) none none
        (XNode.elem "entry" [] [XNode.elem "orth" [("x", "y")] []]) true =
      some (none, XNode.elem "entry" [] [XNode.elem "orth" [("x", "y")] []], true)) ∧
    (false ≠ true → (none : Option XNode) = none ∧ false = false) :=
  unlink_leaf_can_flag_discipline (mkRaw [[0]]) none none
    (XNode.elem "entry" [] [XNode.elem "orth" [("x", "y")] []]) true none
    (XNode.elem "entry" [] [XNode.elem "orth" [("x", "y")] []]) false rfl

/-! ## Helper lemmas for the content joiner -/

theorem sepBytes_length : sepBytes.length = 2 := rfl

theorem nullBytes_length : nullBytes.length = 6 := rfl

theorem g_strlcat_fits (dst src : List Nat) (cap : Nat)
    (h : dst.length + src.length + 1 ≤ cap) :
    g_strlcat dst src cap = dst ++ src := by
  unfold g_strlcat
  rw [if_neg (by omega : ¬ cap ≤ dst.length)]
  congr 1
  have h2 : src.length ≤ cap - 1 - dst.length := by omega
  exact List.take_of_length_le h2

theorem joinSpecModel_growth :
    ∀ (cs : List (Option (List Nat))) (acc : List Nat),
      acc.length ≤ (joinSpecModel cs acc).length := by
  intro cs
  induction cs with
  | nil => intro acc; simp [joinSpecModel]
  | cons c rest ih =>
    intro acc
    cases c with
    | none =>
      simp only [joinSpecModel]
      refine le_trans ?_ (ih _)
      by_cases ha : acc.length = 0
      · simp [ha, List.length_append]
      · have hcond : acc.length ≠ 0 := ha
        rw [if_pos hcond]
        simp only [List.length_append]
        omega
    | some cb =>
      simp only [joinSpecModel]
      refine le_trans ?_ (ih _)
      by_cases ha : acc.length = 0
      · simp [ha, List.length_append]
      · have hcond : acc.length ≠ 0 := ha
        rw [if_pos hcond]
        simp only [List.length_append]
        omega

theorem orthLoop_step_fits (e cb : List Nat) (cap : Nat)
    (hfit : ((if e.length ≠ 0 then e ++ sepBytes else e) ++ cb).length + 1 ≤ cap) :
    g_strlcat (if e.length ≠ 0 then g_strlcat e sepBytes cap else e) cb cap =
      (if e.length ≠ 0 then e ++ sepBytes else e) ++ cb := by
  by_cases he : e.length = 0
  · have hcond : ¬(e.length ≠ 0) := fun h => h he
    rw [if_neg hcond] at hfit
    rw [if_neg hcond, if_neg hcond]
    apply g_strlcat_fits
    simp only [List.length_append] at hfit
    omega
  · have hcond : e.length ≠ 0 := he
    rw [if_pos hcond] at hfit
    rw [if_pos hcond, if_pos hcond]
    simp only [List.length_append, sepBytes_length] at hfit
    have hsep : g_strlcat e sepBytes cap = e ++ sepBytes := by
      apply g_strlcat_fits
      rw [sepBytes_length]
      omega
    rw [hsep]
    apply g_strlcat_fits
    simp only [List.length_append, sepBytes_length]
    omega

theorem orthLoop_eq_joinSpec :
    ∀ (cs : List (Option (List Nat))) (e : List Nat) (cap : Nat),
      (joinSpecModel cs e).length + 1 ≤ cap →
      orthLoop cap cs e = joinSpecModel cs e := by
  intro cs
  induction cs with
  | nil => intro e cap _; rfl
  | cons c rest ih =>
    intro e cap hcap
    cases c with
    | none =>
      simp only [joinSpecModel] at hcap ⊢
      simp only [orthLoop]
      have hg := joinSpecModel_growth rest
        ((if e.length ≠ 0 then e ++ sepBytes else e) ++ nullBytes)
      rw [orthLoop_step_fits e nullBytes cap (by omega)]
      exact ih _ cap hcap
    | some cb =>
      simp only [joinSpecModel] at hcap ⊢
      simp only [orthLoop]
      have hg := joinSpecModel_growth rest
        ((if e.length ≠ 0 then e ++ sepBytes else e) ++ cb)
      rw [orthLoop_step_fits e cb cap (by omega)]
      exact ih _ cap hcap

theorem utf8_skip_pos (b : Nat) : 1 ≤ utf8_skip b := by
  unfold utf8_skip
  repeat' split
  all_goals omega

theorem utf8CharCountFuel_irrel :
    ∀ (f1 : Nat) (l : List Nat) (f2 : Nat), l.length ≤ f1 → l.length ≤ f2 →
      utf8CharCountFuel f1 l = utf8CharCountFuel f2 l := by
  intro f1
  induction f1 with
  | zero =>
    intro l f2 h1 _
    have hl : l = [] := List.eq_nil_of_length_eq_zero (by omega)
    subst hl
    cases f2 with
    | zero => rfl
    | succ f3 => rfl
  | succ f1b ih =>
    intro l f2 h1 h2
    cases l with
    | nil => cases f2 with | zero => rfl | succ f3 => rfl
    | cons b rest =>
      cases f2 with
      | zero => simp at h2
      | succ f2b =>
        simp only [utf8CharCountFuel]
        congr 1
        have hs := utf8_skip_pos b
        simp only [List.length_cons] at h1 h2
        apply ih
        · simp only [List.length_drop, List.length_cons]
          omega
        · simp only [List.length_drop, List.length_cons]
          omega

theorem utf8CharCount_cons (b : Nat) (rest : List Nat) :
    utf8CharCount (b :: rest) = 1 + utf8CharCount ((b :: rest).drop (utf8_skip b)) := by
  unfold utf8CharCount
  simp only [List.length_cons, utf8CharCountFuel]
  congr 1
  apply utf8CharCountFuel_irrel
  · have hs := utf8_skip_pos b
    simp only [List.length_drop, List.length_cons]
    omega
  · exact le_refl _

theorem g_utf8_strncpy_all :
    ∀ (n : Nat) (src : List Nat), utf8CharCount src ≤ n →
      g_utf8_strncpy src n = src := by
  intro n
  induction n with
  | zero =>
    intro src h
    cases src with
    | nil => rfl
    | cons b rest =>
      rw [utf8CharCount_cons] at h
      omega
  | succ n2 ih =>
    intro src h
    cases src with
    | nil => rfl
    | cons b rest =>
      rw [show g_utf8_strncpy (b :: rest) (n2 + 1) =
            (b :: rest).take (utf8_skip b) ++
              g_utf8_strncpy ((b :: rest).drop (utf8_skip b)) n2
          from rfl]
      rw [utf8CharCount_cons] at h
      have h2 : utf8CharCount ((b :: rest).drop (utf8_skip b)) ≤ n2 := by omega
      rw [ih _ h2, List.take_append_drop]

/-- C7 counterexample: three matched nodes with contents "a", "" and "c" are
joined to "a, , c" — the node with empty (but non-NULL) content contributes
nothing and no "(null)" placeholder appears, contrary to the claimed output
"a, (null), c". -/
theorem entry_orths_empty_content_without_placeholder :
    entry_orths_to_string (some [some [97], some [], some [99]]) 100 =
      some ([97, 44, 32, 44, 32, 99], true) ∧
    [97, 44, 32, 44, 32, 99] ≠ [97, 44, 32] ++ nullBytes ++ [44, 32, 99] := by
  refine ⟨by decide, by decide⟩

/-- C7 (amended): for a non-empty match set (and a buffer large enough that no
truncation occurs: the joined bytes fit in the byte-capped buffer and count at
most len / 2 UTF-8 characters, the unit the final copy truncates at without
splitting a character), the function returns TRUE and stores the fold that
appends the separator ", " before an item only when the accumulator is
non-empty and substitutes "(null)" only for a NULL content retrieval — an
empty-string content contributes nothing; on an empty match set it returns
FALSE and stores the placeholder message. -/
theorem entry_orths_to_string_join_spec
    (cs : List (Option (List Nat))) (len : Nat)
    (hne : cs ≠ [])
    (hfit : (joinSpecModel cs []).length + 1 ≤ len)
    (hchars : utf8CharCount (joinSpecModel cs []) ≤ len / 2) :
    entry_orths_to_string (some cs) len = some (joinSpecModel cs [], true) ∧
    entry_orths_to_string none len = some (errBytes.take (len - 1), false) := by
  have hlen : ¬(len = 0) := by omega
  constructor
  · unfold entry_orths_to_string
    rw [if_neg hlen]
    cases cs with
    | nil => exact absurd rfl hne
    | cons c cs2 =>
      show some (g_utf8_strncpy (orthLoop len (c :: cs2) []) (len / 2), true) =
        some (joinSpecModel (c :: cs2) [], true)
      rw [orthLoop_eq_joinSpec (c :: cs2) [] len hfit,
        g_utf8_strncpy_all (len / 2) _ hchars]
  · unfold entry_orths_to_string
    rw [if_neg hlen]
    rfl

/-- C7 witness: contents "a", NULL, "c" join to "a, (null), c" with a large
buffer. -/
theorem entry_orths_to_string_join_spec_witness :
    entry_orths_to_string (some [some [97], none, some [99]]) 100 =
      some ([97, 44, 32, 40, 110, 117, 108, 108, 41, 44, 32, 99], true) :=
  (entry_orths_to_string_join_spec [some [97], none, some [99]] 100
      (by decide) (by decide) (by decide)).1.trans (by decide)

end FD
